import Mathlib

/-!
Verification development for the league-optimization repository
(`src/optimization.py`).

The program partitions N "teams" into `num_groups` groups, each of size
within `[min_size, max_size]`, minimizing travel cost between co-located
teams.  The Gurobi solver is an external collaborator: we embed the model
that `optimize_ab` builds (objective and constraints, as functions of the
solver's raw variable values `X i k` for the binary variables `g[i,k]`),
the solution-decoding loop, and the cost recomputation, all translated
from the Python source.  The raw solver values are a parameter
`X : ℕ → ℕ → ℚ`, since the search itself happens outside the program.
-/

/-- A pair of (latitude, longitude) coordinates. -/
abbrev Coord := ℚ × ℚ

/-! ### Python runtime values, for the buggy helper functions

`distance_car` and `duration_car` subscript function objects
(`distance_duration_car[0]`, `duration_car[1]`) instead of calling them,
which in Python raises `TypeError`.  We embed just enough of Python's
value model to state this. -/

/-- A Python runtime value: a number, a tuple, or a function object
(identified by its name). -/
inductive PyVal where
  | num : ℚ → PyVal
  | tuple : List PyVal → PyVal
  | funcVal : String → PyVal

/-- Python runtime errors that subscripting can raise. -/
inductive PyError where
  | typeError
  | indexError
deriving DecidableEq, Repr

/-- Python subscript `v[i]`: tuples are indexed (out of range raises
`IndexError`); subscripting a number or a function object raises
`TypeError` ("object is not subscriptable"). -/
def pySubscript : PyVal → ℕ → Except PyError PyVal
  | PyVal.num _, _ => Except.error PyError.typeError
  | PyVal.funcVal _, _ => Except.error PyError.typeError
  | PyVal.tuple xs, i =>
    match xs[i]? with
    | some v => Except.ok v
    | none => Except.error PyError.indexError

/-- `def distance_car(s, e): return distance_duration_car[0]` —
subscripts the function object `distance_duration_car` instead of
calling it. -/
def distance_car (s e : Coord) : Except PyError PyVal :=
  pySubscript (PyVal.funcVal "distance_duration_car") 0

/-- `def duration_car(s, e): return duration_car[1]` — subscripts the
function object `duration_car` itself. -/
def duration_car (s e : Coord) : Except PyError PyVal :=
  pySubscript (PyVal.funcVal "duration_car") 1

/-! ### Matrix access and loop sums -/

/-- `matrix[i][j]` for a nested-list matrix. -/
def mget (matrix : List (List ℚ)) (i j : ℕ) : ℚ :=
  (matrix.getD i []).getD j 0

/-- The running sum `su = 0; for k in range(n): su += f k`. -/
def lsum (n : ℕ) (f : ℕ → ℚ) : ℚ :=
  ((List.range n).map f).sum

/-! ### example_matrix

`example_matrix(n)` draws `n` random coordinates and fills an `n × n`
matrix with `0` on the diagonal and `metric(coordinates[i],
coordinates[j])` off it.  The random coordinate list and the metric
(by default the external geopy geodesic distance) are parameters of the
embedding. -/

/-- `matrix[i][j] = 0 if i == j else metric(coordinates[i], coordinates[j])`,
built for `n = coordinates.length`. -/
def example_matrix (coordinates : List Coord) (metric : Coord → Coord → ℚ) :
    List (List ℚ) :=
  (List.range coordinates.length).map (fun i =>
    (List.range coordinates.length).map (fun j =>
      if i = j then 0 else metric (coordinates.getD i (0, 0)) (coordinates.getD j (0, 0))))

/-! ### Basic indexing lemmas -/

theorem getD_map_range {α : Type} (n : ℕ) (f : ℕ → α) (d : α) (i : ℕ)
    (h : i < n) : ((List.range n).map f).getD i d = f i := by
  rw [List.getD_eq_getElem?_getD]
  simp [List.getElem?_map, List.getElem?_range, h]

theorem mget_example_matrix (coordinates : List Coord)
    (metric : Coord → Coord → ℚ) (i j : ℕ)
    (hi : i < coordinates.length) (hj : j < coordinates.length) :
    mget (example_matrix coordinates metric) i j =
      if i = j then 0
      else metric (coordinates.getD i (0, 0)) (coordinates.getD j (0, 0)) := by
  unfold mget example_matrix
  rw [getD_map_range _ _ _ _ hi, getD_map_range _ _ _ _ hj]

/-! ### The model built by `optimize_ab` (lines 96–138)

`optimize_ab` creates binary variables `g[i,k]`, builds a quadratic
objective, and adds the one-group-per-team and group-size constraints.
We express the objective and the constraints as functions/predicates of
the variable values `X i k`. -/

/-- Error kinds for `optimize_ab`.  `assertionError` is what the Python
`assert` in the decoding loop raises; `infeasibleSpec` and
`constraintViolated` are the spec's error kinds for the pre-solve and
post-solve feasibility checks. -/
inductive OptError where
  | infeasibleSpec
  | constraintViolated
  | assertionError
deriving DecidableEq, Repr

/-- The inner loop `su = 0; for k in range(num_groups): su += g[i,k]*g[j,k]`. -/
def coMembership (X : ℕ → ℕ → ℚ) (num_groups i j : ℕ) : ℚ :=
  lsum num_groups (fun k => X i k * X j k)

/-- The objective built at lines 108–121, evaluated at variable values `X`:
`obj += (1-su) * (2 * matrix[i][j] + 2 * matrix[j][i])` over all pairs
`i < j` (the loop skips `i >= j`). -/
def modelObjective (matrix : List (List ℚ)) (num_groups : ℕ)
    (X : ℕ → ℕ → ℚ) : ℚ :=
  lsum matrix.length (fun i => lsum matrix.length (fun j =>
    if i ≥ j then 0
    else (1 - coMembership X num_groups i j) *
      (2 * mget matrix i j + 2 * mget matrix j i)))

/-- Follows the spec's words (§4.1): maximize
`Σ_{i<j} (1 − Σ_k x[i,k]·x[j,k]) · (cost[i][j] + cost[j][i])` —
for comparison with `modelObjective`. -/
def specObjective (matrix : List (List ℚ)) (num_groups : ℕ)
    (X : ℕ → ℕ → ℚ) : ℚ :=
  lsum matrix.length (fun i => lsum matrix.length (fun j =>
    if i < j then
      (1 - coMembership X num_groups i j) *
        (mget matrix i j + mget matrix j i)
    else 0))

/-- The constraints added at lines 123–138: each team is in exactly one
group, and each group's size is within `[min_size, max_size]` when the
bound is given (`if min_size is not None: ...`). -/
def modelConstraints (num_teams num_groups : ℕ)
    (min_size max_size : Option ℕ) (X : ℕ → ℕ → ℚ) : Prop :=
  (∀ i, i < num_teams → lsum num_groups (fun j => X i j) = 1) ∧
  (∀ j, j < num_groups →
    min_size.elim True (fun mn => (mn : ℚ) ≤ lsum num_teams (fun i => X i j)) ∧
    max_size.elim True (fun mx => lsum num_teams (fun i => X i j) ≤ (mx : ℚ)))

/-- The variables are declared `GRB.BINARY`: an (integral) raw solution
has every `g[i,k]` equal to `0` or `1`. -/
def binaryVars (num_teams num_groups : ℕ) (X : ℕ → ℕ → ℚ) : Prop :=
  ∀ i, i < num_teams → ∀ k, k < num_groups → X i k = 0 ∨ X i k = 1

/-! ### Solution decoding (lines 142–148)

```
teams_to_groups = [None for _ in range(len(matrix))]
for i in range(num_teams):
    for k in range(num_groups):
        if g[i, k].X > 0.5:
            assert teams_to_groups[i] is None
            teams_to_groups[i] = k
```
-/

/-- The inner decoding loop for team `i`: iterate over the listed group
indices, carrying `teams_to_groups[i]` as the accumulator; a second
index above the threshold fires the `assert` (AssertionError). -/
def decodeLoop (X : ℕ → ℕ → ℚ) (i : ℕ) :
    List ℕ → Option ℕ → Except OptError (Option ℕ)
  | [], acc => Except.ok acc
  | k :: ks, acc =>
    if 1 / 2 < X i k then
      match acc with
      | none => decodeLoop X i ks (some k)
      | some _ => Except.error OptError.assertionError
    else
      decodeLoop X i ks acc

/-- The decoding loop for team `i` over `k in range(num_groups)`. -/
def decodeTeam (X : ℕ → ℕ → ℚ) (num_groups i : ℕ) :
    Except OptError (Option ℕ) :=
  decodeLoop X i (List.range num_groups) none

/-- The outer decoding loop over the listed team indices. -/
def decodeAll (X : ℕ → ℕ → ℚ) (num_groups : ℕ) :
    List ℕ → Except OptError (List (Option ℕ))
  | [] => Except.ok []
  | i :: rest =>
    match decodeTeam X num_groups i with
    | Except.error e => Except.error e
    | Except.ok v =>
      match decodeAll X num_groups rest with
      | Except.error e => Except.error e
      | Except.ok vs => Except.ok (v :: vs)

/-- The full decoding loop, producing `teams_to_groups`. -/
def decodeAssignment (X : ℕ → ℕ → ℚ) (num_teams num_groups : ℕ) :
    Except OptError (List (Option ℕ)) :=
  decodeAll X num_groups (List.range num_teams)

/-- The groups `k < num_groups` whose variable for team `i` exceeds the
`0.5` threshold, in increasing order. -/
def hitList (X : ℕ → ℕ → ℚ) (num_groups i : ℕ) : List ℕ :=
  (List.range num_groups).filter (fun k => decide (1 / 2 < X i k))

/-! ### Cost recomputation and the orchestrator (lines 150–158) -/

/-- `total_distance_traveled`, recomputed from the matrix and the raw
variable values:
```
for i in range(num_teams):
    for j in range(i+1, num_teams):
        for k in range(num_groups):
            if g[i, k].X > 0.5 and g[j, k].X > 0.5:
                total_distance_traveled += matrix[i][j] * 2 + matrix[j][i] * 2
```
-/
def recomputeCost (matrix : List (List ℚ)) (num_groups : ℕ)
    (X : ℕ → ℕ → ℚ) : ℚ :=
  lsum matrix.length (fun i => lsum matrix.length (fun j =>
    if i + 1 ≤ j then
      lsum num_groups (fun k =>
        if 1 / 2 < X i k ∧ 1 / 2 < X j k then
          mget matrix i j * 2 + mget matrix j i * 2
        else 0)
    else 0))

/-- `optimize_ab`, as a function of the matrix, the partition parameters
and the solver's raw variable values `X` (the result of `m.optimize()`,
an external call).  The function builds the model, solves, decodes
`teams_to_groups` and recomputes the travelled distance; the Python
code performs no feasibility check of its own, so the only failure is
the decoding `assert`. -/
def optimize_ab (matrix : List (List ℚ)) (num_groups : ℕ)
    (min_size max_size : Option ℕ) (X : ℕ → ℕ → ℚ) :
    Except OptError (List (Option ℕ) × ℚ) :=
  match decodeAssignment X matrix.length num_groups with
  | Except.error e => Except.error e
  | Except.ok teams_to_groups =>
    Except.ok (teams_to_groups, recomputeCost matrix num_groups X)

/-! ### Spec-side definitions used by the claims -/

/-- Follows the spec's words (§4.3): the brute-force recomputation —
for every unordered pair `(i, j)` with `i < j` whose decoded groups are
equal, add `2·cost[i][j] + 2·cost[j][i]`. -/
def bruteForceCost (matrix : List (List ℚ)) (teams_to_groups : List (Option ℕ)) : ℚ :=
  lsum matrix.length (fun i => lsum matrix.length (fun j =>
    if i < j ∧ teams_to_groups.getD i none ≠ none ∧
        teams_to_groups.getD i none = teams_to_groups.getD j none then
      2 * mget matrix i j + 2 * mget matrix j i
    else 0))

/-- Follows the spec's words (§4.3): group sizes recomputed from the
decoded assignment. -/
def groupSizes (teams_to_groups : List (Option ℕ)) (num_groups : ℕ) :
    List ℕ :=
  (List.range num_groups).map (fun k =>
    (teams_to_groups.filter (fun o => decide (o = some k))).length)

instance {ε α : Type} [DecidableEq ε] [DecidableEq α] :
    DecidableEq (Except ε α) := fun x y =>
  match x, y with
  | Except.error a, Except.error b => decidable_of_iff (a = b) (by simp)
  | Except.ok a, Except.ok b => decidable_of_iff (a = b) (by simp)
  | Except.error _, Except.ok _ => isFalse (fun h => Except.noConfusion h)
  | Except.ok _, Except.error _ => isFalse (fun h => Except.noConfusion h)

/-! ### Lemmas about loop sums -/

theorem lsum_zero (f : ℕ → ℚ) : lsum 0 f = 0 := rfl

theorem lsum_succ (n : ℕ) (f : ℕ → ℚ) : lsum (n + 1) f = lsum n f + f n := by
  unfold lsum
  rw [List.range_succ, List.map_append, List.sum_append]
  simp

theorem lsum_congr {n : ℕ} {f g : ℕ → ℚ} (h : ∀ i, i < n → f i = g i) :
    lsum n f = lsum n g := by
  unfold lsum
  exact congrArg List.sum
    (List.map_congr_left (fun i hi => h i (List.mem_range.mp hi)))

theorem lsum_two_mul {n : ℕ} {f g : ℕ → ℚ} (h : ∀ i, i < n → f i = 2 * g i) :
    lsum n f = 2 * lsum n g := by
  induction n with
  | zero => simp [lsum_zero]
  | succ m ih =>
    rw [lsum_succ, lsum_succ, ih (fun i hi => h i (Nat.lt_succ_of_lt hi)),
      h m (Nat.lt_succ_self m)]
    ring

theorem sum_ite_filter (P : ℕ → Prop) [DecidablePred P] (c : ℚ) :
    ∀ l : List ℕ, (l.map (fun k => if P k then c else 0)).sum =
      c * ((l.filter (fun k => decide (P k))).length : ℚ) := by
  intro l
  induction l with
  | nil => simp
  | cons a t ih =>
    by_cases h : P a
    · simp only [List.map_cons, List.sum_cons, List.filter_cons, h, if_pos,
        decide_eq_true_eq, ih, List.length_cons]
      push_cast
      ring
    · simp only [List.map_cons, List.sum_cons, List.filter_cons, h, if_neg,
        decide_eq_true_eq, ih]
      simp [h]

/-! ### A binary solution summing to 1 has exactly one index above 0.5 -/

theorem filter_sum_zero (f : ℕ → ℚ) :
    ∀ l : List ℕ, (∀ k ∈ l, f k = 0 ∨ f k = 1) → (l.map f).sum = 0 →
      l.filter (fun k => decide (1 / 2 < f k)) = [] := by
  intro l
  induction l with
  | nil => intro _ _; rfl
  | cons a t ih =>
    intro hb hs
    rw [List.map_cons, List.sum_cons] at hs
    have hnn : (0 : ℚ) ≤ (t.map f).sum := by
      apply List.sum_nonneg
      intro x hx
      obtain ⟨k, hk, rfl⟩ := List.mem_map.mp hx
      rcases hb k (List.mem_cons_of_mem a hk) with h0 | h1
      · rw [h0]
      · rw [h1]; norm_num
    rcases hb a (by simp) with h0 | h1
    · rw [h0, zero_add] at hs
      have ht := ih (fun k hk => hb k (List.mem_cons_of_mem a hk)) hs
      rw [List.filter_cons, ht]
      simp [h0]
    · exfalso
      rw [h1] at hs
      linarith

theorem filter_sum_one (f : ℕ → ℚ) :
    ∀ l : List ℕ, (∀ k ∈ l, f k = 0 ∨ f k = 1) → (l.map f).sum = 1 →
      ∃ k0, l.filter (fun k => decide (1 / 2 < f k)) = [k0] ∧ f k0 = 1 := by
  intro l
  induction l with
  | nil => intro _ hs; simp at hs
  | cons a t ih =>
    intro hb hs
    rw [List.map_cons, List.sum_cons] at hs
    rcases hb a (by simp) with h0 | h1
    · rw [h0, zero_add] at hs
      obtain ⟨k0, hk0, hf0⟩ := ih (fun k hk => hb k (List.mem_cons_of_mem a hk)) hs
      refine ⟨k0, ?_, hf0⟩
      rw [List.filter_cons, hk0]
      simp [h0]
    · have hs0 : (t.map f).sum = 0 := by rw [h1] at hs; linarith
      have ht := filter_sum_zero f t (fun k hk => hb k (List.mem_cons_of_mem a hk)) hs0
      refine ⟨a, ?_, h1⟩
      rw [List.filter_cons, ht]
      have : decide (1 / 2 < f a) = true := by rw [h1]; norm_num
      rw [this]
      simp

/-! ### Characterization of the decoding loop -/

theorem decodeLoop_cons_none_pos (X : ℕ → ℕ → ℚ) (i a : ℕ) (t : List ℕ)
    (h : 1 / 2 < X i a) :
    decodeLoop X i (a :: t) none = decodeLoop X i t (some a) := by
  simp only [decodeLoop, if_pos h]

theorem decodeLoop_cons_some_pos (X : ℕ → ℕ → ℚ) (i a v : ℕ) (t : List ℕ)
    (h : 1 / 2 < X i a) :
    decodeLoop X i (a :: t) (some v) = Except.error OptError.assertionError := by
  simp only [decodeLoop, if_pos h]

theorem decodeLoop_cons_neg (X : ℕ → ℕ → ℚ) (i a : ℕ) (t : List ℕ)
    (h : ¬ 1 / 2 < X i a) (acc : Option ℕ) :
    decodeLoop X i (a :: t) acc = decodeLoop X i t acc := by
  cases acc <;> simp only [decodeLoop, if_neg h]

theorem filter_cons_pos (X : ℕ → ℕ → ℚ) (i a : ℕ) (t : List ℕ)
    (h : 1 / 2 < X i a) :
    (a :: t).filter (fun k => decide (1 / 2 < X i k)) =
      a :: t.filter (fun k => decide (1 / 2 < X i k)) := by
  simp only [List.filter_cons, decide_eq_true_eq, if_pos h]

theorem filter_cons_neg (X : ℕ → ℕ → ℚ) (i a : ℕ) (t : List ℕ)
    (h : ¬ 1 / 2 < X i a) :
    (a :: t).filter (fun k => decide (1 / 2 < X i k)) =
      t.filter (fun k => decide (1 / 2 < X i k)) := by
  simp only [List.filter_cons, decide_eq_true_eq, if_neg h]

theorem decodeLoop_some (X : ℕ → ℕ → ℚ) (i v : ℕ) :
    ∀ ks : List ℕ, decodeLoop X i ks (some v) =
      if ks.filter (fun k => decide (1 / 2 < X i k)) = [] then Except.ok (some v)
      else Except.error OptError.assertionError := by
  intro ks
  induction ks with
  | nil => rfl
  | cons a t ih =>
    by_cases h : 1 / 2 < X i a
    · rw [decodeLoop_cons_some_pos X i a v t h, filter_cons_pos X i a t h,
        if_neg (List.cons_ne_nil a _)]
    · rw [decodeLoop_cons_neg X i a t h (some v), filter_cons_neg X i a t h, ih]

theorem decodeLoop_none (X : ℕ → ℕ → ℚ) (i : ℕ) :
    ∀ ks : List ℕ, decodeLoop X i ks none =
      match ks.filter (fun k => decide (1 / 2 < X i k)) with
      | [] => Except.ok none
      | [k] => Except.ok (some k)
      | _ :: _ :: _ => Except.error OptError.assertionError := by
  intro ks
  induction ks with
  | nil => rfl
  | cons a t ih =>
    by_cases h : 1 / 2 < X i a
    · rw [decodeLoop_cons_none_pos X i a t h, decodeLoop_some X i a t,
        filter_cons_pos X i a t h]
      cases hf : t.filter (fun k => decide (1 / 2 < X i k)) with
      | nil => simp
      | cons b t' => simp
    · rw [decodeLoop_cons_neg X i a t h none, ih, filter_cons_neg X i a t h]

theorem decodeTeam_eq (X : ℕ → ℕ → ℚ) (num_groups i : ℕ) :
    decodeTeam X num_groups i =
      match hitList X num_groups i with
      | [] => Except.ok none
      | [k] => Except.ok (some k)
      | _ :: _ :: _ => Except.error OptError.assertionError := by
  unfold decodeTeam hitList
  exact decodeLoop_none X i (List.range num_groups)

theorem decodeAll_map (X : ℕ → ℕ → ℚ) (num_groups : ℕ) (v : ℕ → Option ℕ) :
    ∀ l : List ℕ, (∀ i ∈ l, decodeTeam X num_groups i = Except.ok (v i)) →
      decodeAll X num_groups l = Except.ok (l.map v) := by
  intro l
  induction l with
  | nil => intro _; rfl
  | cons a t ih =>
    intro h
    have ha := h a (by simp)
    have ht := ih (fun i hi => h i (List.mem_cons_of_mem a hi))
    simp [decodeAll, ha, ht]

theorem decodeAll_ok_forall (X : ℕ → ℕ → ℚ) (num_groups : ℕ) :
    ∀ (l : List ℕ) (tg : List (Option ℕ)),
      decodeAll X num_groups l = Except.ok tg →
      List.Forall₂ (fun i b => decodeTeam X num_groups i = Except.ok b) l tg := by
  intro l
  induction l with
  | nil =>
    intro tg h
    simp only [decodeAll] at h
    cases h
    exact List.Forall₂.nil
  | cons a t ih =>
    intro tg h
    cases hta : decodeTeam X num_groups a with
    | error e => simp [decodeAll, hta] at h
    | ok v =>
      cases htt : decodeAll X num_groups t with
      | error e => simp [decodeAll, hta, htt] at h
      | ok vs =>
        simp only [decodeAll, hta, htt, Except.ok.injEq] at h
        subst h
        exact List.Forall₂.cons hta (ih vs htt)

theorem decodeAll_error (X : ℕ → ℕ → ℚ) (num_groups : ℕ) :
    ∀ (l : List ℕ) (e : OptError), decodeAll X num_groups l = Except.error e →
      ∃ i ∈ l, decodeTeam X num_groups i = Except.error e := by
  intro l
  induction l with
  | nil => intro e h; simp [decodeAll] at h
  | cons a t ih =>
    intro e h
    cases hta : decodeTeam X num_groups a with
    | error e' =>
      simp only [decodeAll, hta, Except.error.injEq] at h
      exact ⟨a, by simp, by rw [hta, h]⟩
    | ok v =>
      cases htt : decodeAll X num_groups t with
      | error e' =>
        simp only [decodeAll, hta, htt, Except.error.injEq] at h
        obtain ⟨i, hi, hd⟩ := ih e' htt
        exact ⟨i, List.mem_cons_of_mem a hi, by rw [hd, h]⟩
      | ok vs => simp [decodeAll, hta, htt] at h

theorem decodeTeam_error_eq (X : ℕ → ℕ → ℚ) (num_groups i : ℕ) (e : OptError)
    (h : decodeTeam X num_groups i = Except.error e) :
    e = OptError.assertionError := by
  rw [decodeTeam_eq] at h
  cases hl : hitList X num_groups i with
  | nil => rw [hl] at h; simp at h
  | cons a t =>
    cases t with
    | nil => rw [hl] at h; simp at h
    | cons b t' =>
      rw [hl] at h
      simp only [Except.error.injEq] at h
      exact h.symm

theorem optimize_ab_error_eq (matrix : List (List ℚ)) (num_groups : ℕ)
    (min_size max_size : Option ℕ) (X : ℕ → ℕ → ℚ) (e : OptError)
    (h : optimize_ab matrix num_groups min_size max_size X = Except.error e) :
    e = OptError.assertionError := by
  unfold optimize_ab at h
  cases hd : decodeAssignment X matrix.length num_groups with
  | error e' =>
    rw [hd] at h
    simp only [Except.error.injEq] at h
    obtain ⟨i, _, hdi⟩ := decodeAll_error X num_groups (List.range matrix.length) e' hd
    rw [← h]
    exact decodeTeam_error_eq X num_groups i e' hdi
  | ok tg =>
    rw [hd] at h
    simp at h

/-! ### Bridging lemmas: hit lists, feasible solutions, cost shapes -/

theorem hitList_mem (X : ℕ → ℕ → ℚ) (num_groups i k : ℕ)
    (h : hitList X num_groups i = [k]) :
    k < num_groups ∧ 1 / 2 < X i k := by
  have hk : k ∈ hitList X num_groups i := by rw [h]; simp
  unfold hitList at hk
  rw [List.mem_filter] at hk
  exact ⟨List.mem_range.mp hk.1, of_decide_eq_true hk.2⟩

theorem hitList_only (X : ℕ → ℕ → ℚ) (num_groups i k : ℕ)
    (h : hitList X num_groups i = [k]) (k' : ℕ) (hk' : k' < num_groups)
    (hp : 1 / 2 < X i k') : k' = k := by
  have hmem : k' ∈ hitList X num_groups i := by
    unfold hitList
    rw [List.mem_filter]
    exact ⟨List.mem_range.mpr hk', decide_eq_true hp⟩
  rw [h] at hmem
  simpa using hmem

theorem uniqueHit_of_feasible (X : ℕ → ℕ → ℚ) (num_teams num_groups : ℕ)
    (hb : binaryVars num_teams num_groups X)
    (hone : ∀ i, i < num_teams → lsum num_groups (fun j => X i j) = 1) :
    ∀ i, i < num_teams → ∃ k, hitList X num_groups i = [k] ∧ X i k = 1 := by
  intro i hi
  have hb' : ∀ k ∈ List.range num_groups, X i k = 0 ∨ X i k = 1 :=
    fun k hk => hb i hi k (List.mem_range.mp hk)
  have hs : ((List.range num_groups).map (X i)).sum = 1 := hone i hi
  obtain ⟨k0, hk0, hf0⟩ := filter_sum_one (X i) (List.range num_groups) hb' hs
  exact ⟨k0, hk0, hf0⟩

theorem decodeAssignment_of_hits (X : ℕ → ℕ → ℚ) (num_teams num_groups : ℕ)
    (hhit : ∀ i, i < num_teams → ∃ k, hitList X num_groups i = [k]) :
    decodeAssignment X num_teams num_groups =
      Except.ok ((List.range num_teams).map
        (fun i => (hitList X num_groups i).head?)) := by
  unfold decodeAssignment
  apply decodeAll_map
  intro i hi
  obtain ⟨k, hk⟩ := hhit i (List.mem_range.mp hi)
  rw [decodeTeam_eq, hk]
  rfl

theorem decodeAssignment_ok_forall (X : ℕ → ℕ → ℚ) (num_teams num_groups : ℕ)
    (tg : List (Option ℕ))
    (h : decodeAssignment X num_teams num_groups = Except.ok tg) :
    tg.length = num_teams ∧
    ∀ i, i < num_teams → decodeTeam X num_groups i = Except.ok (tg.getD i none) := by
  unfold decodeAssignment at h
  have hf := decodeAll_ok_forall X num_groups (List.range num_teams) tg h
  have hlen : tg.length = num_teams := by
    have hl := List.Forall₂.length_eq hf
    simpa using hl.symm
  refine ⟨hlen, fun i hi => ?_⟩
  rw [List.forall₂_iff_get] at hf
  have h1 : i < (List.range num_teams).length := by simpa using hi
  have h2 : i < tg.length := by rw [hlen]; exact hi
  have hR := hf.2 i h1 h2
  have hget : tg.get ⟨i, h2⟩ = tg.getD i none := by
    rw [List.getD_eq_getElem?_getD, List.getElem?_eq_getElem h2]
    simp [List.get_eq_getElem]
  rwa [List.get_range, hget] at hR

theorem optimize_ab_ok (matrix : List (List ℚ)) (num_groups : ℕ)
    (min_size max_size : Option ℕ) (X : ℕ → ℕ → ℚ) (tg : List (Option ℕ)) (c : ℚ)
    (h : optimize_ab matrix num_groups min_size max_size X = Except.ok (tg, c)) :
    decodeAssignment X matrix.length num_groups = Except.ok tg ∧
      c = recomputeCost matrix num_groups X := by
  unfold optimize_ab at h
  cases hd : decodeAssignment X matrix.length num_groups with
  | error e => rw [hd] at h; simp at h
  | ok tg' =>
    rw [hd] at h
    simp only [Except.ok.injEq, Prod.mk.injEq] at h
    obtain ⟨h1, h2⟩ := h
    exact ⟨congrArg Except.ok h1, h2.symm⟩

theorem recompute_inner (matrix : List (List ℚ)) (num_groups : ℕ)
    (X : ℕ → ℕ → ℚ) (i j ki kj : ℕ)
    (hki : hitList X num_groups i = [ki]) (hkj : hitList X num_groups j = [kj]) :
    lsum num_groups (fun k =>
      if 1 / 2 < X i k ∧ 1 / 2 < X j k then
        mget matrix i j * 2 + mget matrix j i * 2
      else 0) =
      if ki = kj then mget matrix i j * 2 + mget matrix j i * 2 else 0 := by
  unfold lsum
  rw [sum_ite_filter (fun k => 1 / 2 < X i k ∧ 1 / 2 < X j k)
    (mget matrix i j * 2 + mget matrix j i * 2) (List.range num_groups)]
  have hsplit : (List.range num_groups).filter
      (fun k => decide (1 / 2 < X i k ∧ 1 / 2 < X j k)) =
      ((List.range num_groups).filter (fun k => decide (1 / 2 < X i k))).filter
        (fun k => decide (1 / 2 < X j k)) := by
    rw [List.filter_filter]
    apply List.filter_congr
    intro x _
    rw [Bool.decide_and]
    exact Bool.and_comm _ _
  have hki' : (List.range num_groups).filter
      (fun k => decide (1 / 2 < X i k)) = [ki] := hki
  rw [hsplit, hki', List.filter_cons, List.filter_nil]
  by_cases hkk : ki = kj
  · have hp : 1 / 2 < X j ki := by
      rw [hkk]
      exact (hitList_mem X num_groups j kj hkj).2
    rw [if_pos (decide_eq_true hp), if_pos hkk]
    simp
  · have hnp : ¬ 1 / 2 < X j ki := by
      intro hp
      exact hkk (hitList_only X num_groups j kj hkj ki
        (hitList_mem X num_groups i ki hki).1 hp)
    rw [if_neg (by simpa using hnp), if_neg hkk]
    simp

theorem recomputeCost_eq_brute (matrix : List (List ℚ)) (num_groups : ℕ)
    (X : ℕ → ℕ → ℚ) (tg : List (Option ℕ))
    (hhit : ∀ i, i < matrix.length →
      ∃ k, hitList X num_groups i = [k] ∧ tg.getD i none = some k) :
    recomputeCost matrix num_groups X = bruteForceCost matrix tg := by
  unfold recomputeCost bruteForceCost
  apply lsum_congr
  intro i hi
  apply lsum_congr
  intro j hj
  obtain ⟨ki, hki, htgi⟩ := hhit i hi
  obtain ⟨kj, hkj, htgj⟩ := hhit j hj
  by_cases hij : i + 1 ≤ j
  · rw [if_pos hij, recompute_inner matrix num_groups X i j ki kj hki hkj,
      htgi, htgj]
    have hij' : i < j := hij
    by_cases hkk : ki = kj
    · rw [if_pos hkk, if_pos ⟨hij', Option.some_ne_none ki, by rw [hkk]⟩]
      ring
    · rw [if_neg hkk, if_neg (by simp [hkk])]
  · rw [if_neg hij, if_neg (fun hc => hij hc.1)]

/-! ### Claim C9 -/

/-- C9: for every pair of coordinate inputs `(s, e)`, `distance_car s e` and
`duration_car s e` raise a `TypeError` and never return a value:
`distance_car` subscripts the function object `distance_duration_car`
instead of calling it, and `duration_car` subscripts itself. -/
theorem c9_car_helpers_raise (s e : Coord) :
    distance_car s e = Except.error PyError.typeError ∧
    duration_car s e = Except.error PyError.typeError :=
  ⟨rfl, rfl⟩

/-! ### Claim C1 -/

/-- C1 counterexample: for the matrix `[[0,1],[1,0]]` with 2 groups and the
solution placing the two teams in different groups, the objective built by
`optimize_ab` does not equal the spec's §4.1 objective (whose per-pair
coefficient is `cost[i][j] + cost[j][i]` with no extra factor): the built
term is 4 where the spec's is 2. -/
theorem c1_counterexample :
    modelObjective [[0, 1], [1, 0]] 2 (fun i k => if i = k then 1 else 0) ≠
      specObjective [[0, 1], [1, 0]] 2 (fun i k => if i = k then 1 else 0) := by
  norm_num [modelObjective, specObjective, coMembership, lsum, mget,
    List.range_succ]

/-- C1 (amended): the per-pair coefficient of the objective built by
`optimize_ab` is `2·(cost[i][j] + cost[j][i])` — twice the coefficient the
spec states: the built objective equals exactly `2 ×` the spec's §4.1
objective for every matrix, group count and variable assignment. -/
theorem c1_objective_double (matrix : List (List ℚ)) (num_groups : ℕ)
    (X : ℕ → ℕ → ℚ) :
    modelObjective matrix num_groups X =
      2 * specObjective matrix num_groups X := by
  unfold modelObjective specObjective
  apply lsum_two_mul
  intro i _
  apply lsum_two_mul
  intro j _
  by_cases hij : i < j
  · rw [if_neg (not_le.mpr hij), if_pos hij]
    ring
  · rw [if_pos (not_lt.mp hij), if_neg hij]
    ring

/-! ### Claim C3 -/

/-- C3 counterexample: with N=10, K=3, minSize=4 (so K·minSize = 12 > 10, an
analytically infeasible spec), `optimize_ab` does not fail with
`InfeasibleSpec`: the solve happens and the result depends on the solver's
raw output — two different raw outputs give two different `ok` results. -/
theorem c3_counterexample :
    10 < 3 * 4 ∧
    optimize_ab (List.replicate 10 (List.replicate 10 (0 : ℚ))) 3 (some 4)
        (some 10) (fun _ _ => 0) =
      Except.ok (List.replicate 10 none, 0) ∧
    optimize_ab (List.replicate 10 (List.replicate 10 (0 : ℚ))) 3 (some 4)
        (some 10) (fun _ k => if k = 0 then 1 else 0) =
      Except.ok (List.replicate 10 (some 0), 0) := by
  refine ⟨by norm_num, ?_, ?_⟩ <;>
    norm_num [optimize_ab, decodeAssignment, decodeAll, decodeTeam, decodeLoop,
      recomputeCost, lsum, mget, List.range_succ, List.replicate]

/-- C3 (amended): `optimize_ab` performs no analytic feasibility check: for
every input — size bounds satisfiable or not — it never fails with
`InfeasibleSpec`; the model is always handed to the solver and infeasibility
is left for the solver to discover. -/
theorem c3_no_infeasible_check (matrix : List (List ℚ)) (num_groups : ℕ)
    (min_size max_size : Option ℕ) (X : ℕ → ℕ → ℚ) :
    optimize_ab matrix num_groups min_size max_size X ≠
      Except.error OptError.infeasibleSpec := by
  intro h
  exact OptError.noConfusion
    (optimize_ab_error_eq matrix num_groups min_size max_size X _ h)

/-! ### Claim C4 -/

/-- C4 counterexample: a raw solution in which no group variable of any
entity exceeds 0.5 does not make extraction fail with
`AmbiguousAssignment`: `optimize_ab` silently returns an assignment in
which both entities are unassigned (`None`). -/
theorem c4_counterexample :
    optimize_ab [[0, 1], [1, 0]] 2 none none (fun _ _ => 0) =
      Except.ok ([none, none], 0) := by
  norm_num [optimize_ab, decodeAssignment, decodeAll, decodeTeam, decodeLoop,
    recomputeCost, lsum, mget, List.range_succ]

/-- C4 (amended): for each entity `i`, if more than one `k` exceeds the 0.5
threshold the decoding fails (the Python `assert` — an AssertionError); if
exactly one `k` exceeds it, the entity is assigned that `k`; but if zero
exceed it, no error is raised — the entity is silently left unassigned
(`None`). -/
theorem c4_decode_cases (X : ℕ → ℕ → ℚ) (num_groups i : ℕ) :
    (2 ≤ (hitList X num_groups i).length →
      decodeTeam X num_groups i = Except.error OptError.assertionError) ∧
    ((hitList X num_groups i).length = 0 →
      decodeTeam X num_groups i = Except.ok none) ∧
    (∀ k, hitList X num_groups i = [k] →
      decodeTeam X num_groups i = Except.ok (some k)) := by
  refine ⟨?_, ?_, ?_⟩
  · intro h2
    rw [decodeTeam_eq]
    cases hl : hitList X num_groups i with
    | nil => rw [hl] at h2; simp at h2
    | cons a t =>
      cases t with
      | nil => rw [hl] at h2; simp at h2
      | cons b t' => rfl
  · intro h0
    rw [decodeTeam_eq, List.length_eq_zero.mp h0]
  · intro k hk
    rw [decodeTeam_eq, hk]

/-- C4 witness: concrete instantiations of the three decoding cases. -/
theorem c4_decode_cases_witness :
    decodeTeam (fun _ _ => 1) 2 0 = Except.error OptError.assertionError ∧
    decodeTeam (fun _ _ => 0) 2 0 = Except.ok none ∧
    decodeTeam (fun _ k => if k = 1 then 1 else 0) 2 0 = Except.ok (some 1) :=
  ⟨(c4_decode_cases (fun _ _ => 1) 2 0).1
      (by norm_num [hitList, List.range_succ]),
   (c4_decode_cases (fun _ _ => 0) 2 0).2.1
      (by norm_num [hitList, List.range_succ]),
   (c4_decode_cases (fun _ k => if k = 1 then 1 else 0) 2 0).2.2 1
      (by norm_num [hitList, List.range_succ])⟩

/-! ### Claim C5 -/

/-- C5 counterexample: with bounds minSize = maxSize = 1 and a raw solution
placing both entities in group 0, the decoded group sizes are `[2, 0]` —
outside the bounds — yet `optimize_ab` returns a result instead of failing
with `ConstraintViolated`: there is no post-solve feasibility check. -/
theorem c5_counterexample :
    optimize_ab [[0, 1], [1, 0]] 2 (some 1) (some 1)
        (fun _ k => if k = 0 then 1 else 0) =
      Except.ok ([some 0, some 0], 4) ∧
    groupSizes [some 0, some 0] 2 = [2, 0] ∧
    ¬ (∀ s ∈ groupSizes [some 0, some 0] 2, 1 ≤ s ∧ s ≤ 1) := by
  refine ⟨?_, ?_, ?_⟩
  · norm_num [optimize_ab, decodeAssignment, decodeAll, decodeTeam, decodeLoop,
      recomputeCost, lsum, mget, List.range_succ]
  · norm_num [groupSizes, List.range_succ]
  · norm_num [groupSizes, List.range_succ]

/-- C5 (amended): `optimize_ab` never recomputes group sizes and never fails
with `ConstraintViolated`: for every input and raw solver output, the call
either fails in decoding (the `assert`) or returns whatever decoded, size
bounds checked nowhere after the solve. -/
theorem c5_no_postsolve_check (matrix : List (List ℚ)) (num_groups : ℕ)
    (min_size max_size : Option ℕ) (X : ℕ → ℕ → ℚ) :
    optimize_ab matrix num_groups min_size max_size X ≠
      Except.error OptError.constraintViolated := by
  intro h
  exact OptError.noConfusion
    (optimize_ab_error_eq matrix num_groups min_size max_size X _ h)

/-! ### Claim C6 -/

/-- C6: for every matrix and partition spec, when the external solver returns
an integral solution satisfying the model's constraints (in particular the
one-group-per-team constraint `optimize_ab` adds for every entity), the
returned `teams_to_groups` is total and single-valued: it has one entry per
entity, and every entry is `some k` for exactly one group index
`k < num_groups`. -/
theorem c6_assignment_total (matrix : List (List ℚ)) (num_groups : ℕ)
    (min_size max_size : Option ℕ) (X : ℕ → ℕ → ℚ)
    (hb : binaryVars matrix.length num_groups X)
    (hc : modelConstraints matrix.length num_groups min_size max_size X) :
    ∃ tg c, optimize_ab matrix num_groups min_size max_size X =
        Except.ok (tg, c) ∧
      tg.length = matrix.length ∧
      ∀ i, i < matrix.length →
        ∃ k, k < num_groups ∧ tg.getD i none = some k := by
  have hhit := uniqueHit_of_feasible X matrix.length num_groups hb hc.1
  have hdec := decodeAssignment_of_hits X matrix.length num_groups
    (fun i hi => ⟨(hhit i hi).choose, (hhit i hi).choose_spec.1⟩)
  refine ⟨(List.range matrix.length).map
      (fun i => (hitList X num_groups i).head?),
    recomputeCost matrix num_groups X, ?_, ?_, ?_⟩
  · unfold optimize_ab
    rw [hdec]
  · simp
  · intro i hi
    obtain ⟨k, hk, _⟩ := hhit i hi
    refine ⟨k, (hitList_mem X num_groups i k hk).1, ?_⟩
    rw [getD_map_range _ _ _ _ hi, hk]
    rfl

/-- C6 witness: a concrete feasible binary solution for the 2×2 matrix. -/
theorem c6_assignment_total_witness :
    ∃ tg c, optimize_ab [[0, 1], [1, 0]] 2 (some 1) (some 1)
        (fun i k => if i = k then (1 : ℚ) else 0) = Except.ok (tg, c) ∧
      tg.length = 2 ∧
      ∀ i, i < 2 → ∃ k, k < 2 ∧ tg.getD i none = some k := by
  apply c6_assignment_total [[0, 1], [1, 0]] 2 (some 1) (some 1)
    (fun i k => if i = k then (1 : ℚ) else 0)
  · intro i hi k hk
    by_cases h : i = k
    · simp [h]
    · simp [h]
  · constructor
    · intro i hi
      have hi2 : i < 2 := hi
      interval_cases i <;> norm_num [lsum, List.range_succ]
    · intro j hj
      constructor
      · show ((1 : ℕ) : ℚ) ≤ lsum 2 (fun i => if i = j then (1 : ℚ) else 0)
        interval_cases j <;> norm_num [lsum, List.range_succ]
      · show lsum 2 (fun i => if i = j then (1 : ℚ) else 0) ≤ ((1 : ℕ) : ℚ)
        interval_cases j <;> norm_num [lsum, List.range_succ]

/-! ### Claim C2 -/

/-- C2: whenever `optimize_ab` returns a result whose decoded assignment
gives every entity a group, the returned totalCost equals the spec's §4.3
brute-force recomputation over the cost matrix — the sum over unordered
pairs i<j with equal decoded groups of `2·cost[i][j] + 2·cost[j][i]`.  (The
solver's reported objective value is not an input to the extraction at
all: the cost is recomputed from the matrix and the raw variable values.) -/
theorem c2_cost_recomputed (matrix : List (List ℚ)) (num_groups : ℕ)
    (min_size max_size : Option ℕ) (X : ℕ → ℕ → ℚ)
    (tg : List (Option ℕ)) (c : ℚ)
    (hok : optimize_ab matrix num_groups min_size max_size X =
      Except.ok (tg, c))
    (hall : ∀ i, i < matrix.length → tg.getD i none ≠ none) :
    c = bruteForceCost matrix tg := by
  obtain ⟨hdec, hc⟩ :=
    optimize_ab_ok matrix num_groups min_size max_size X tg c hok
  obtain ⟨hlen, hteam⟩ :=
    decodeAssignment_ok_forall X matrix.length num_groups tg hdec
  rw [hc]
  apply recomputeCost_eq_brute
  intro i hi
  have hd := hteam i hi
  cases hgd : tg.getD i none with
  | none => exact absurd hgd (hall i hi)
  | some k =>
    refine ⟨k, ?_, rfl⟩
    rw [hgd] at hd
    rw [decodeTeam_eq] at hd
    cases hl : hitList X num_groups i with
    | nil => rw [hl] at hd; simp at hd
    | cons a t =>
      cases t with
      | nil =>
        rw [hl] at hd
        simp only [Except.ok.injEq, Option.some.injEq] at hd
        rw [hd]
      | cons b t' => rw [hl] at hd; simp at hd

/-- C2 witness: for the 2×2 matrix with a single group, the returned cost 4
equals the brute-force recomputation. -/
theorem c2_cost_recomputed_witness :
    (4 : ℚ) = bruteForceCost [[0, 1], [1, 0]] [some 0, some 0] :=
  c2_cost_recomputed [[0, 1], [1, 0]] 1 none none (fun _ _ => 1)
    [some 0, some 0] 4
    (by norm_num [optimize_ab, decodeAssignment, decodeAll, decodeTeam,
      decodeLoop, recomputeCost, lsum, mget, List.range_succ])
    (by intro i hi; have hi2 : i < 2 := hi; interval_cases i <;> simp)

/-! ### Claim C7 -/

/-- C7: with a single group (K = 1) and any binary raw solution satisfying
the model constraints (bounds permitting), the totalCost returned by
`optimize_ab` is the sum over all unordered pairs i<j of
`2·(cost[i][j] + cost[j][i])` — every pair is co-located. -/
theorem c7_single_group_cost (matrix : List (List ℚ))
    (min_size max_size : Option ℕ) (X : ℕ → ℕ → ℚ)
    (hb : binaryVars matrix.length 1 X)
    (hc : modelConstraints matrix.length 1 min_size max_size X) :
    ∃ tg, optimize_ab matrix 1 min_size max_size X = Except.ok (tg,
      lsum matrix.length (fun i => lsum matrix.length (fun j =>
        if i < j then 2 * (mget matrix i j + mget matrix j i) else 0))) := by
  have hhit := uniqueHit_of_feasible X matrix.length 1 hb hc.1
  have hhit0 : ∀ i, i < matrix.length → hitList X 1 i = [0] := by
    intro i hi
    obtain ⟨k, hk, _⟩ := hhit i hi
    have hk1 : k < 1 := (hitList_mem X 1 i k hk).1
    interval_cases k
    exact hk
  have hdec := decodeAssignment_of_hits X matrix.length 1
    (fun i hi => ⟨0, hhit0 i hi⟩)
  have hrc : recomputeCost matrix 1 X =
      lsum matrix.length (fun i => lsum matrix.length (fun j =>
        if i < j then 2 * (mget matrix i j + mget matrix j i) else 0)) := by
    rw [recomputeCost_eq_brute matrix 1 X
      ((List.range matrix.length).map (fun _ => some 0))
      (fun i hi => ⟨0, hhit0 i hi, by rw [getD_map_range _ _ _ _ hi]⟩)]
    unfold bruteForceCost
    apply lsum_congr
    intro i hi
    apply lsum_congr
    intro j hj
    by_cases hij : i < j
    · rw [if_pos ⟨hij, by rw [getD_map_range _ _ _ _ hi]; simp,
        by rw [getD_map_range _ _ _ _ hi, getD_map_range _ _ _ _ hj]⟩,
        if_pos hij]
      ring
    · rw [if_neg (fun hcond => hij hcond.1), if_neg hij]
  refine ⟨(List.range matrix.length).map (fun i => (hitList X 1 i).head?), ?_⟩
  unfold optimize_ab
  rw [hdec, hrc]

/-- C7 witness: the 2×2 matrix [[0,3],[5,0]] with one group gives totalCost
2·(3+5) = 16. -/
theorem c7_single_group_cost_witness :
    ∃ tg, optimize_ab [[0, 3], [5, 0]] 1 none none (fun _ _ => 1) =
      Except.ok (tg, lsum 2 (fun i => lsum 2 (fun j =>
        if i < j then
          2 * (mget [[0, 3], [5, 0]] i j + mget [[0, 3], [5, 0]] j i)
        else 0))) := by
  apply c7_single_group_cost [[0, 3], [5, 0]] none none (fun _ _ => 1)
  · intro i hi k hk
    right
    rfl
  · constructor
    · intro i hi
      norm_num [lsum, List.range_succ]
    · intro j hj
      exact ⟨trivial, trivial⟩

/-! ### Claim C8 -/

/-- The 4-team matrix with `cost[i][j] = 1` for all `i ≠ j`. -/
def onesMatrix4 : List (List ℚ) :=
  [[0, 1, 1, 1], [1, 0, 1, 1], [1, 1, 0, 1], [1, 1, 1, 0]]

/-- Raw solver values encoding the concrete assignment `gs` (team `i` in
group `gs[i]`): `x[i,k] = 1` iff `gs[i] = k`. -/
def assignmentVals (gs : List ℕ) : ℕ → ℕ → ℚ := fun i k =>
  if gs.getD i 0 = k then 1 else 0

theorem c8_eval (g0 g1 g2 g3 : ℕ)
    (h0 : g0 < 2) (h1 : g1 < 2) (h2 : g2 < 2) (h3 : g3 < 2)
    (hbal : [g0, g1, g2, g3].count 0 = 2 ∧ [g0, g1, g2, g3].count 1 = 2) :
    optimize_ab onesMatrix4 2 (some 2) (some 2)
        (assignmentVals [g0, g1, g2, g3]) =
      Except.ok ([some g0, some g1, some g2, some g3], 8) := by
  interval_cases g0 <;> interval_cases g1 <;> interval_cases g2 <;>
    interval_cases g3 <;>
    first
      | exact absurd hbal (by decide)
      | norm_num [optimize_ab, decodeAssignment, decodeAll, decodeTeam,
          decodeLoop, recomputeCost, lsum, mget, assignmentVals, onesMatrix4,
          List.range_succ]

theorem c8_cost_eight (g0 g1 g2 g3 : ℕ)
    (h0 : g0 < 2) (h1 : g1 < 2) (h2 : g2 < 2) (h3 : g3 < 2)
    (hbal : [g0, g1, g2, g3].count 0 = 2 ∧ [g0, g1, g2, g3].count 1 = 2) :
    recomputeCost onesMatrix4 2 (assignmentVals [g0, g1, g2, g3]) = 8 := by
  have h := c8_eval g0 g1 g2 g3 h0 h1 h2 h3 hbal
  exact ((optimize_ab_ok onesMatrix4 2 (some 2) (some 2)
    (assignmentVals [g0, g1, g2, g3]) [some g0, some g1, some g2, some g3]
    8 h).2).symm

/-- C8: for the 4-entity matrix with `cost[i][j] = 1` for all `i ≠ j`, with
K = 2 and group sizes fixed to 2, every balanced 2–2 split decodes to a
result with totalCost 8 under the exact recomputation rule, and every
balanced split is optimal: its recomputed cost is ≤ that of every other
feasible (balanced) split. -/
theorem c8_balanced_split (g0 g1 g2 g3 : ℕ)
    (h0 : g0 < 2) (h1 : g1 < 2) (h2 : g2 < 2) (h3 : g3 < 2)
    (hbal : [g0, g1, g2, g3].count 0 = 2 ∧ [g0, g1, g2, g3].count 1 = 2) :
    optimize_ab onesMatrix4 2 (some 2) (some 2)
        (assignmentVals [g0, g1, g2, g3]) =
      Except.ok ([some g0, some g1, some g2, some g3], 8) ∧
    ∀ b0 b1 b2 b3 : ℕ, b0 < 2 → b1 < 2 → b2 < 2 → b3 < 2 →
      [b0, b1, b2, b3].count 0 = 2 → [b0, b1, b2, b3].count 1 = 2 →
      recomputeCost onesMatrix4 2 (assignmentVals [g0, g1, g2, g3]) ≤
        recomputeCost onesMatrix4 2 (assignmentVals [b0, b1, b2, b3]) := by
  refine ⟨c8_eval g0 g1 g2 g3 h0 h1 h2 h3 hbal, ?_⟩
  intro b0 b1 b2 b3 hb0 hb1 hb2 hb3 hc0 hc1
  rw [c8_cost_eight g0 g1 g2 g3 h0 h1 h2 h3 hbal,
    c8_cost_eight b0 b1 b2 b3 hb0 hb1 hb2 hb3 ⟨hc0, hc1⟩]

/-- C8 witness: the balanced split `[0,0,1,1]`. -/
theorem c8_balanced_split_witness :
    optimize_ab onesMatrix4 2 (some 2) (some 2)
        (assignmentVals [0, 0, 1, 1]) =
      Except.ok ([some 0, some 0, some 1, some 1], 8) ∧
    ∀ b0 b1 b2 b3 : ℕ, b0 < 2 → b1 < 2 → b2 < 2 → b3 < 2 →
      [b0, b1, b2, b3].count 0 = 2 → [b0, b1, b2, b3].count 1 = 2 →
      recomputeCost onesMatrix4 2 (assignmentVals [0, 0, 1, 1]) ≤
        recomputeCost onesMatrix4 2 (assignmentVals [b0, b1, b2, b3]) :=
  c8_balanced_split 0 0 1 1 (by decide) (by decide) (by decide) (by decide)
    ⟨by decide, by decide⟩

/-! ### Claim C10 -/

/-- C10: `example_matrix` builds an n×n matrix (n the number of drawn
coordinates) that is a valid CostMatrix: every diagonal entry is 0, and —
whenever the metric is symmetric and non-negative, as the default
straight-line geodesic distance is — every entry is non-negative and the
matrix is symmetric. -/
theorem c10_example_matrix_valid (coordinates : List Coord)
    (metric : Coord → Coord → ℚ)
    (hsym : ∀ a b, metric a b = metric b a)
    (hnn : ∀ a b, 0 ≤ metric a b) :
    (example_matrix coordinates metric).length = coordinates.length ∧
    (∀ row ∈ example_matrix coordinates metric,
      row.length = coordinates.length) ∧
    (∀ i, i < coordinates.length →
      mget (example_matrix coordinates metric) i i = 0) ∧
    (∀ i j, i < coordinates.length → j < coordinates.length →
      0 ≤ mget (example_matrix coordinates metric) i j ∧
      mget (example_matrix coordinates metric) i j =
        mget (example_matrix coordinates metric) j i) := by
  refine ⟨?_, ?_, ?_, ?_⟩
  · unfold example_matrix
    simp
  · intro row hrow
    unfold example_matrix at hrow
    obtain ⟨i, hi, rfl⟩ := List.mem_map.mp hrow
    simp
  · intro i hi
    rw [mget_example_matrix coordinates metric i i hi hi, if_pos rfl]
  · intro i j hi hj
    constructor
    · rw [mget_example_matrix coordinates metric i j hi hj]
      by_cases hij : i = j
      · rw [if_pos hij]
      · rw [if_neg hij]
        exact hnn _ _
    · rw [mget_example_matrix coordinates metric i j hi hj,
        mget_example_matrix coordinates metric j i hj hi]
      by_cases hij : i = j
      · rw [if_pos hij, if_pos hij.symm]
      · rw [if_neg hij, if_neg (fun h => hij h.symm)]
        exact hsym _ _

/-- C10 witness: two concrete coordinates with a constant symmetric
non-negative metric. -/
theorem c10_example_matrix_valid_witness :
    (example_matrix [(48, 6), (55, 15)] (fun _ _ => 1)).length = 2 ∧
    (∀ row ∈ example_matrix [(48, 6), (55, 15)] (fun _ _ => 1),
      row.length = 2) ∧
    (∀ i, i < 2 →
      mget (example_matrix [(48, 6), (55, 15)] (fun _ _ => 1)) i i = 0) ∧
    (∀ i j, i < 2 → j < 2 →
      0 ≤ mget (example_matrix [(48, 6), (55, 15)] (fun _ _ => 1)) i j ∧
      mget (example_matrix [(48, 6), (55, 15)] (fun _ _ => 1)) i j =
        mget (example_matrix [(48, 6), (55, 15)] (fun _ _ => 1)) j i) :=
  c10_example_matrix_valid [(48, 6), (55, 15)] (fun _ _ => 1)
    (fun _ _ => rfl) (fun _ _ => by norm_num)
